import Mathlib

/-!
Verification of the Home Assistant YAML automation converter
(`ha_converter.py`, class `HAYamlConverter`).

The parsed YAML document tree is embedded as the inductive `Node`
(mappings are ordered association lists with string keys, matching Python
dict insertion-order semantics).  The converter's methods
`convert_automation`, `_convert_triggers`, `_convert_yaml_data`,
`_is_automation`, `_is_new_syntax` and `get_summary_stats` are embedded as
executable Lean functions.  The mutable `changes_log` is made explicit:
each conversion function returns the list of log entries it appends, in
order.  A log entry `f"⚪ {alias}: già in nuova sintassi"` is modelled as
`LogEntry.alreadyNew alias` and `f"✓ {alias}: {', '.join(changes)}"` as
`LogEntry.changed alias changes`; `get_summary_stats` classifies entries
by which marker they start with, which the structured form records
exactly.  Python exceptions raised by the converter (only `TypeError`,
from `_convert_triggers` applied to non-iterable or non-indexable values)
are modelled with `Except`.
-/

/-- A YAML scalar as produced by the Python YAML parsers. -/
inductive Scalar : Type where
  | str : String → Scalar
  | int : Int → Scalar
  | bool : Bool → Scalar
  | null : Scalar
deriving DecidableEq, Repr

/-- A parsed YAML document node: mapping (ordered, string keys), sequence,
or scalar. -/
inductive Node : Type where
  | scalar : Scalar → Node
  | seq : List Node → Node
  | map : List (String × Node) → Node
deriving Repr

/-- Python `d[k]` / the value component of `k in d`: first binding of `k`
in insertion order (Python dicts have unique keys, so "first" is exact). -/
def dget (k : String) : List (String × Node) → Option Node
  | [] => none
  | (k', v) :: rest => if k' = k then some v else dget k rest

/-- Python `k in d`. -/
def dcontains (k : String) (m : List (String × Node)) : Bool :=
  (dget k m).isSome

/-- Python `d[k] = v`: replace the binding in place when the key is
present, else append the new binding at the end (insertion order). -/
def dset (k : String) (v : Node) (m : List (String × Node)) :
    List (String × Node) :=
  if dcontains k m then m.map (fun p => if p.1 = k then (k, v) else p)
  else m ++ [(k, v)]

/-- Python `del d[k]`. -/
def ddel (k : String) (m : List (String × Node)) : List (String × Node) :=
  m.filter (fun p => p.1 != k)

/-- Python `needle in hay` for strings: substring containment. -/
def strContains (hay needle : String) : Bool :=
  decide (needle.toList <:+: hay.toList)

/-- The only exception kind the converter itself can raise. -/
inductive PyErr : Type where
  | typeError : PyErr
deriving DecidableEq, Repr

/-- One `changes_log` entry: `alreadyNew` models a `"⚪ {alias}: già in
nuova sintassi"` line, `changed` models a `"✓ {alias}: {changes}"` line
(the alias is the raw node found under the `alias` key, or the default
scalar `"Unnamed automation"`). -/
inductive LogEntry : Type where
  | alreadyNew : Node → LogEntry
  | changed : Node → List String → LogEntry
deriving Repr

/-- `_is_automation`: a dict containing at least one recognized
automation key. -/
def is_automation : Node → Bool
  | .map m =>
      ["trigger", "triggers", "condition", "conditions", "action",
        "actions", "alias"].any (fun k => dcontains k m)
  | _ => false

/-- `_is_new_syntax`: a dict with at least one new-convention key and no
old-convention key.  (The Lean name drops the final word of the Python
name.) -/
def is_new_syn : Node → Bool
  | .map m =>
      (["triggers", "conditions", "actions"].any (fun k => dcontains k m))
        && !(["trigger", "condition", "action"].any (fun k => dcontains k m))
  | _ => false

/-- The `platform` → `trigger` rename performed on one trigger dict in
the loop body of `_convert_triggers`: set `trigger` to the `platform`
value (in-place replace or append), then delete `platform`. -/
def rename_platform (t : List (String × Node)) : List (String × Node) :=
  match dget "platform" t with
  | some pv => ddel "platform" (dset "trigger" pv t)
  | none => t

/-- `true` iff the node is the scalar string `"platform"` (Python
equality of a list element with the string `'platform'`). -/
def isPlatformStr : Node → Bool
  | .scalar (.str s) => s = "platform"
  | _ => false

/-- One iteration of the loop in `_convert_triggers`, on an arbitrary
element.  On a dict it renames `platform` to `trigger`.  On other values
it follows Python semantics of `'platform' in x` followed by item
assignment: for a list, membership of the string; for a string, substring
containment (a hit then raises `TypeError` on item assignment); for any
other scalar, `in` itself raises `TypeError`. -/
def convert_trigger_elem : Node → Except PyErr Node
  | .map t => .ok (.map (rename_platform t))
  | .seq l => if l.any isPlatformStr then .error .typeError else .ok (.seq l)
  | .scalar (.str s) =>
      if strContains s "platform" then .error .typeError
      else .ok (.scalar (.str s))
  | .scalar _ => .error .typeError

/-- Run `convert_trigger_elem` over a list left to right, stopping at the
first exception (Python list-comprehension order). -/
def conv_elems : List Node → Except PyErr (List Node)
  | [] => .ok []
  | x :: xs =>
      match convert_trigger_elem x, conv_elems xs with
      | .ok y, .ok ys => .ok (y :: ys)
      | .error e, _ => .error e
      | .ok _, .error e => .error e

/-- `_convert_triggers`: wrap a dict into a one-element list, then rename
`platform` → `trigger` in every element.  A string input is iterated
character by character (Python `for` over a `str`); any other scalar is
not iterable and raises `TypeError`. -/
def convert_triggers : Node → Except PyErr Node
  | .map t =>
      match conv_elems [.map t] with
      | .ok ys => .ok (.seq ys)
      | .error e => .error e
  | .seq l =>
      match conv_elems l with
      | .ok ys => .ok (.seq ys)
      | .error e => .error e
  | .scalar (.str s) =>
      match conv_elems (s.toList.map (fun c => .scalar (.str (String.singleton c)))) with
      | .ok ys => .ok (.seq ys)
      | .error e => .error e
  | .scalar _ => .error .typeError

/-- The `trigger` → `triggers` block of `convert_automation`: when the
old key is present, convert its value (which may raise), store it under
`triggers` and delete `trigger`. -/
def trigger_step (m : List (String × Node)) :
    Except PyErr (List (String × Node) × List String) :=
  match dget "trigger" m with
  | some tv =>
      match convert_triggers tv with
      | .ok ts => .ok (ddel "trigger" (dset "triggers" ts m), ["trigger → triggers"])
      | .error e => .error e
  | none => .ok (m, [])

/-- The `condition` → `conditions` / `action` → `actions` blocks of
`convert_automation`: move the value verbatim. -/
def pure_step (oldK newK tag : String) (m : List (String × Node)) :
    List (String × Node) × List String :=
  match dget oldK m with
  | some v => (ddel oldK (dset newK v m), [tag])
  | none => (m, [])

/-- `convert_automation`: returns the converted dict together with the
`changes_log` entries appended by this call (one `alreadyNew` entry, one
`changed` entry, or none when no change was made). -/
def convert_automation (m : List (String × Node)) :
    Except PyErr (List (String × Node) × List LogEntry) :=
  let aliasv := (dget "alias" m).getD (.scalar (.str "Unnamed automation"))
  if is_new_syn (.map m) then
    .ok (m, [.alreadyNew aliasv])
  else
    match trigger_step m with
    | .error e => .error e
    | .ok (m1, c1) =>
        let s2 := pure_step "condition" "conditions" "condition → conditions" m1
        let s3 := pure_step "action" "actions" "action → actions" s2.1
        let changes := c1 ++ s2.2 ++ s3.2
        .ok (s3.1, if changes.isEmpty then [] else [.changed aliasv changes])

/-- The body of the list comprehension in `_convert_yaml_data`: an
automation-like element is converted, every other element is kept
unchanged.  (The non-dict arm of the inner match is unreachable because
`is_automation` only holds on dicts.) -/
def convert_item (item : Node) : Except PyErr (Node × List LogEntry) :=
  if is_automation item then
    match item with
    | .map m =>
        match convert_automation m with
        | .ok (m', lg) => .ok (.map m', lg)
        | .error e => .error e
    | _ => .ok (item, [])
  else .ok (item, [])

mutual

/-- `_convert_yaml_data`: dispatch on the node kind, threading the
appended `changes_log` entries and the first raised exception. -/
def convert_yaml_data : Node → Except PyErr (Node × List LogEntry)
  | .seq items =>
      match convert_list items with
      | .ok (items', lg) => .ok (.seq items', lg)
      | .error e => .error e
  | .map m =>
      if is_automation (.map m) then
        match convert_automation m with
        | .ok (m', lg) => .ok (.map m', lg)
        | .error e => .error e
      else
        match convert_entries m with
        | .ok (m', lg) => .ok (.map m', lg)
        | .error e => .error e
  | .scalar v => .ok (.scalar v, [])

/-- The sequence branch of `_convert_yaml_data`: the list comprehension
over the elements (left to right, no recursion into non-automation
elements). -/
def convert_list : List Node → Except PyErr (List Node × List LogEntry)
  | [] => .ok ([], [])
  | item :: rest =>
      match convert_item item, convert_list rest with
      | .ok (n, lg), .ok (ns, lgs) => .ok (n :: ns, lg ++ lgs)
      | .error e, _ => .error e
      | .ok _, .error e => .error e

/-- The non-automation dict branch of `_convert_yaml_data`: rebuild the
dict in key order, recursing only into the value of the key
`"automation"`. -/
def convert_entries : List (String × Node) →
    Except PyErr (List (String × Node) × List LogEntry)
  | [] => .ok ([], [])
  | (k, v) :: rest =>
      match (if k = "automation" then convert_yaml_data v else .ok (v, [])),
          convert_entries rest with
      | .ok (v', lg), .ok (rest', lgs) => .ok ((k, v') :: rest', lg ++ lgs)
      | .error e, _ => .error e
      | .ok _, .error e => .error e

end

/-- The three counters returned by `get_summary_stats`. -/
structure Stats : Type where
  converted : Nat
  already_new : Nat
  total : Nat
deriving DecidableEq, Repr

/-- `log.startswith("✓")` for a structured entry. -/
def isChangedEntry : LogEntry → Bool
  | .changed _ _ => true
  | .alreadyNew _ => false

/-- `log.startswith("⚪")` for a structured entry. -/
def isAlreadyEntry : LogEntry → Bool
  | .alreadyNew _ => true
  | .changed _ _ => false

/-- `get_summary_stats` over the `changes_log` accumulated by a
conversion. -/
def get_summary_stats (log : List LogEntry) : Stats :=
  { converted := (log.filter isChangedEntry).length
    already_new := (log.filter isAlreadyEntry).length
    total := log.length }

/-! ### Lemmas about the dict operations -/

theorem dget_append (k : String) (a b : List (String × Node)) :
    dget k (a ++ b) =
      match dget k a with
      | some v => some v
      | none => dget k b := by
  induction a with
  | nil => simp [dget]
  | cons p rest ih =>
      obtain ⟨k', v⟩ := p
      by_cases h : k' = k <;> simp [dget, h, ih]

theorem dget_replace_self (k : String) (v : Node) (m : List (String × Node)) :
    dget k (m.map fun p => if p.1 = k then (k, v) else p)
      = (dget k m).map (fun _ => v) := by
  induction m with
  | nil => simp [dget]
  | cons p rest ih =>
      obtain ⟨a, w⟩ := p
      simp only [List.map_cons]
      by_cases h : a = k
      · subst h
        rw [if_pos (show (a, w).1 = a from rfl)]
        simp [dget, ih]
      · rw [if_neg (by simpa using h)]
        simp [dget, h, ih]

theorem dget_replace_ne {k' k : String} (h : k' ≠ k) (v : Node)
    (m : List (String × Node)) :
    dget k' (m.map fun p => if p.1 = k then (k, v) else p) = dget k' m := by
  induction m with
  | nil => simp
  | cons p rest ih =>
      obtain ⟨a, w⟩ := p
      simp only [List.map_cons]
      by_cases ha : a = k
      · subst ha
        rw [if_pos rfl]
        simp [dget, Ne.symm h, ih]
      · rw [if_neg (by simpa using ha)]
        simp [dget, ih]

theorem dget_dset_self (k : String) (v : Node) (m : List (String × Node)) :
    dget k (dset k v m) = some v := by
  unfold dset
  by_cases h : dcontains k m = true
  · rw [if_pos h]
    rw [dget_replace_self]
    unfold dcontains at h
    obtain ⟨w, hw⟩ := Option.isSome_iff_exists.mp h
    simp [hw]
  · rw [if_neg h]
    rw [dget_append]
    have h0 : dget k m = none := by
      unfold dcontains at h
      simpa using h
    simp [h0, dget]

theorem dget_dset_ne {k' k : String} (h : k' ≠ k) (v : Node)
    (m : List (String × Node)) :
    dget k' (dset k v m) = dget k' m := by
  unfold dset
  by_cases hc : dcontains k m = true
  · rw [if_pos hc]
    exact dget_replace_ne h v m
  · rw [if_neg hc]
    rw [dget_append]
    cases hk : dget k' m with
    | some w => simp
    | none => simp [dget, Ne.symm h]

theorem dget_ddel_self (k : String) (m : List (String × Node)) :
    dget k (ddel k m) = none := by
  induction m with
  | nil => simp [ddel, dget]
  | cons p rest ih =>
      obtain ⟨a, w⟩ := p
      unfold ddel at ih ⊢
      rw [List.filter_cons]
      by_cases h : a = k
      · subst h
        simpa using ih
      · have hb : ((a, w).1 != k) = true := by simpa using h
        rw [if_pos hb]
        simpa [dget, h] using ih

theorem dget_ddel_ne {k' k : String} (h : k' ≠ k)
    (m : List (String × Node)) :
    dget k' (ddel k m) = dget k' m := by
  induction m with
  | nil => simp [ddel]
  | cons p rest ih =>
      obtain ⟨a, w⟩ := p
      unfold ddel at ih ⊢
      rw [List.filter_cons]
      by_cases ha : a = k
      · subst ha
        have hb : ((a, w).1 != a) = false := by simp
        rw [hb]
        simpa [dget, Ne.symm h] using ih
      · have hb : ((a, w).1 != k) = true := by simpa using ha
        rw [if_pos hb]
        by_cases ha' : a = k'
        · subst ha'
          simp [dget]
        · simpa [dget, ha'] using ih

/-! ### Lemmas about the rename steps of `convert_automation` -/

theorem pure_step_of_none {oldK newK tag : String} {m : List (String × Node)}
    (hv : dget oldK m = none) : pure_step oldK newK tag m = (m, []) := by
  unfold pure_step
  rw [hv]

theorem pure_step_of_some {oldK newK tag : String} {m : List (String × Node)}
    {v : Node} (hv : dget oldK m = some v) :
    pure_step oldK newK tag m = (ddel oldK (dset newK v m), [tag]) := by
  unfold pure_step
  rw [hv]

theorem pure_step_old (oldK newK tag : String) (m : List (String × Node)) :
    dget oldK (pure_step oldK newK tag m).1 = none := by
  unfold pure_step
  cases hv : dget oldK m with
  | none => simpa using hv
  | some v => simp [dget_ddel_self]

theorem pure_step_other {k oldK newK : String} (h1 : k ≠ oldK) (h2 : k ≠ newK)
    (tag : String) (m : List (String × Node)) :
    dget k (pure_step oldK newK tag m).1 = dget k m := by
  unfold pure_step
  cases hv : dget oldK m with
  | none => rfl
  | some v => simp [dget_ddel_ne h1, dget_dset_ne h2]

theorem pure_step_new {oldK newK : String} (h : newK ≠ oldK) (tag : String)
    {m : List (String × Node)} {v : Node} (hv : dget oldK m = some v) :
    dget newK (pure_step oldK newK tag m).1 = some v := by
  rw [pure_step_of_some hv]
  simp [dget_ddel_ne h, dget_dset_self]

theorem trigger_step_of_none {m : List (String × Node)}
    (hv : dget "trigger" m = none) : trigger_step m = .ok (m, []) := by
  unfold trigger_step
  rw [hv]

theorem trigger_step_of_some {m : List (String × Node)} {tv ts : Node}
    (hv : dget "trigger" m = some tv) (hc : convert_triggers tv = .ok ts) :
    trigger_step m
      = .ok (ddel "trigger" (dset "triggers" ts m), ["trigger → triggers"]) := by
  simp only [trigger_step, hv, hc]

theorem trigger_step_of_error {m : List (String × Node)} {tv : Node}
    {e : PyErr} (hv : dget "trigger" m = some tv)
    (hc : convert_triggers tv = .error e) : trigger_step m = .error e := by
  simp only [trigger_step, hv, hc]

theorem trigger_step_old {m m1 : List (String × Node)} {c1 : List String}
    (h : trigger_step m = .ok (m1, c1)) : dget "trigger" m1 = none := by
  cases hv : dget "trigger" m with
  | none =>
      rw [trigger_step_of_none hv] at h
      cases h
      exact hv
  | some tv =>
      cases hc : convert_triggers tv with
      | ok ts =>
          rw [trigger_step_of_some hv hc] at h
          cases h
          exact dget_ddel_self _ _
      | error e =>
          rw [trigger_step_of_error hv hc] at h
          cases h

theorem trigger_step_other {k : String} (h1 : k ≠ "trigger")
    (h2 : k ≠ "triggers") {m m1 : List (String × Node)} {c1 : List String}
    (h : trigger_step m = .ok (m1, c1)) : dget k m1 = dget k m := by
  cases hv : dget "trigger" m with
  | none =>
      rw [trigger_step_of_none hv] at h
      cases h
      rfl
  | some tv =>
      cases hc : convert_triggers tv with
      | ok ts =>
          rw [trigger_step_of_some hv hc] at h
          cases h
          rw [dget_ddel_ne h1, dget_dset_ne h2]
      | error e =>
          rw [trigger_step_of_error hv hc] at h
          cases h

/-- `_is_new_syntax` on a dict implies the three old keys are absent. -/
theorem is_new_syn_no_old {m : List (String × Node)}
    (h : is_new_syn (.map m) = true) :
    dget "trigger" m = none ∧ dget "condition" m = none
      ∧ dget "action" m = none := by
  simp only [is_new_syn, List.any_cons, List.any_nil, Bool.or_false,
    Bool.and_eq_true, Bool.not_eq_true', Bool.or_eq_false_iff] at h
  obtain ⟨-, h1, h2, h3⟩ := h
  unfold dcontains at h1 h2 h3
  exact ⟨Option.not_isSome_iff_eq_none.mp (by simp [h1]),
    Option.not_isSome_iff_eq_none.mp (by simp [h2]),
    Option.not_isSome_iff_eq_none.mp (by simp [h3])⟩

/-- After a successful `convert_automation`, none of the old keys
`trigger`/`condition`/`action` remain. -/
theorem convert_automation_no_old {m b : List (String × Node)}
    {l : List LogEntry} (h : convert_automation m = .ok (b, l)) :
    dget "trigger" b = none ∧ dget "condition" b = none
      ∧ dget "action" b = none := by
  unfold convert_automation at h
  by_cases hn : is_new_syn (.map m) = true
  · rw [if_pos hn] at h
    cases h
    exact is_new_syn_no_old hn
  · rw [if_neg hn] at h
    cases ht : trigger_step m with
    | error e => rw [ht] at h; cases h
    | ok p =>
        obtain ⟨m1, c1⟩ := p
        rw [ht] at h
        simp only [Except.ok.injEq, Prod.mk.injEq] at h
        obtain ⟨hb, -⟩ := h
        subst hb
        refine ⟨?_, ?_, ?_⟩
        · rw [pure_step_other (by decide) (by decide),
            pure_step_other (by decide) (by decide)]
          exact trigger_step_old ht
        · rw [pure_step_other (by decide) (by decide)]
          exact pure_step_old _ _ _ _
        · exact pure_step_old _ _ _ _

/-- C1: `convert_automation` is idempotent — a successfully converted
automation converts to itself (structurally, key order included) on a
second run. -/
theorem convert_automation_idempotent {a b : List (String × Node)}
    {l : List LogEntry} (h : convert_automation a = .ok (b, l)) :
    ∃ l2, convert_automation b = .ok (b, l2) := by
  obtain ⟨h1, h2, h3⟩ := convert_automation_no_old h
  unfold convert_automation
  by_cases hn : is_new_syn (.map b) = true
  · rw [if_pos hn]
    exact ⟨_, rfl⟩
  · refine ⟨[], ?_⟩
    rw [if_neg hn, trigger_step_of_none h1]
    simp only [pure_step_of_none h2, pure_step_of_none h3, List.nil_append,
      List.isEmpty_nil, if_true]

/-- C1 witness: a trigger-only automation converts, and re-converting
the output returns it unchanged. -/
theorem convert_automation_idempotent_witness :
    ∃ l2, convert_automation
        [("triggers", Node.seq [Node.map [("trigger", Node.scalar (Scalar.str "state"))]])]
      = .ok ([("triggers", Node.seq [Node.map [("trigger", Node.scalar (Scalar.str "state"))]])], l2) :=
  @convert_automation_idempotent
    [("trigger", Node.map [("platform", Node.scalar (Scalar.str "state"))])]
    [("triggers", Node.seq [Node.map [("trigger", Node.scalar (Scalar.str "state"))]])]
    [LogEntry.changed (Node.scalar (Scalar.str "Unnamed automation"))
      ["trigger → triggers"]] (by rfl)

/-- C2: `_is_new_syntax` holds exactly on dicts having at least one of
`triggers`/`conditions`/`actions` and none of
`trigger`/`condition`/`action`; it is false on every non-dict node. -/
theorem is_new_syn_iff (n : Node) :
    is_new_syn n = true ↔
      ∃ m, n = Node.map m
        ∧ (dcontains "triggers" m = true ∨ dcontains "conditions" m = true
            ∨ dcontains "actions" m = true)
        ∧ ¬(dcontains "trigger" m = true ∨ dcontains "condition" m = true
            ∨ dcontains "action" m = true) := by
  cases n with
  | scalar v => simp [is_new_syn]
  | seq l => simp [is_new_syn]
  | map m =>
      simp only [is_new_syn, List.any_cons, List.any_nil, Bool.or_false,
        Bool.and_eq_true, Bool.or_eq_true, Bool.not_eq_true',
        Bool.or_eq_false_iff, Node.map.injEq]
      constructor
      · rintro ⟨h1, h2, h3, h4⟩
        exact ⟨m, rfl, h1, by simp [h2, h3, h4]⟩
      · rintro ⟨m', hm, h1, h2⟩
        cases hm
        push_neg at h2
        obtain ⟨h2, h3, h4⟩ := h2
        exact ⟨h1, by simpa using h2, by simpa using h3, by simpa using h4⟩

/-- C2 witness: instantiation at a dict with `triggers` only and at a
scalar. -/
theorem is_new_syn_iff_witness :
    (is_new_syn (Node.map [("triggers", Node.seq [])]) = true
      ↔ ∃ m, Node.map [("triggers", Node.seq [])] = Node.map m
        ∧ (dcontains "triggers" m = true ∨ dcontains "conditions" m = true
            ∨ dcontains "actions" m = true)
        ∧ ¬(dcontains "trigger" m = true ∨ dcontains "condition" m = true
            ∨ dcontains "action" m = true)) :=
  is_new_syn_iff (Node.map [("triggers", Node.seq [])])

/-! ### C3: shape normalization of triggers -/

/-- The spec's bare-mapping example `{platform: state, entity_id: x}`. -/
def bare_trigger : List (String × Node) :=
  [("platform", Node.scalar (.str "state")), ("entity_id", Node.scalar (.str "x"))]

/-- What `_convert_triggers` makes of `bare_trigger` (the rename appends
`trigger` after the untouched keys, Python dict insertion order). -/
def bare_converted : List (String × Node) :=
  [("entity_id", Node.scalar (.str "x")), ("trigger", Node.scalar (.str "state"))]

/-- On a list of dicts the element loop of `_convert_triggers` renames
each element independently and never raises. -/
theorem conv_elems_of_maps (l : List (List (String × Node))) :
    conv_elems (l.map Node.map)
      = .ok (l.map (fun t => Node.map (rename_platform t))) := by
  induction l with
  | nil => rfl
  | cons t rest ih => simp only [List.map_cons, conv_elems, convert_trigger_elem, ih]

/-- C3: a bare mapping trigger becomes a one-element sequence whose
element carries `trigger` (the old `platform` value) and the untouched
`entity_id`; a sequence of n trigger dicts maps to the n renamed dicts in
order; the rename leaves every key other than `platform`/`trigger`
untouched. -/
theorem convert_triggers_shape :
    (convert_triggers (.map bare_trigger) = .ok (.seq [.map bare_converted])
      ∧ dget "trigger" bare_converted = some (Node.scalar (.str "state"))
      ∧ dget "entity_id" bare_converted = some (Node.scalar (.str "x"))
      ∧ dcontains "platform" bare_converted = false
      ∧ bare_converted.length = 2)
    ∧ (∀ l : List (List (String × Node)),
        convert_triggers (.seq (l.map Node.map))
          = .ok (.seq (l.map (fun t => Node.map (rename_platform t)))))
    ∧ (∀ (t : List (String × Node)) (k : String),
        k ≠ "platform" → k ≠ "trigger" →
        dget k (rename_platform t) = dget k t) := by
  refine ⟨⟨by rfl, by rfl, by rfl, by rfl, by rfl⟩, ?_, ?_⟩
  · intro l
    simp only [convert_triggers, conv_elems_of_maps]
  · intro t k h1 h2
    unfold rename_platform
    cases hv : dget "platform" t with
    | none => rfl
    | some pv => rw [dget_ddel_ne h1, dget_dset_ne h2]

/-- C3 witness: the key-preservation clause applied to the example
element and key. -/
theorem convert_triggers_shape_witness :
    dget "entity_id" (rename_platform bare_trigger)
      = dget "entity_id" bare_trigger :=
  convert_triggers_shape.2.2 bare_trigger "entity_id" (by decide) (by decide)

/-! ### C4: the sequence branch of `_convert_yaml_data` -/

/-- `_is_automation` only holds on dicts. -/
theorem is_automation_map {i : Node} (h : is_automation i = true) :
    ∃ m, i = Node.map m := by
  cases i with
  | map m => exact ⟨m, rfl⟩
  | seq l => simp [is_automation] at h
  | scalar v => simp [is_automation] at h

/-- What one sequence element becomes: converted when automation-like,
otherwise returned as-is (not recursed into). -/
theorem convert_item_rel {i n0 : Node} {lg0 : List LogEntry}
    (h : convert_item i = .ok (n0, lg0)) :
    (is_automation i = false ∧ n0 = i)
      ∨ (∃ m m' l', i = Node.map m ∧ is_automation i = true
          ∧ convert_automation m = .ok (m', l') ∧ n0 = Node.map m') := by
  by_cases ha : is_automation i = true
  · obtain ⟨m, hm⟩ := is_automation_map ha
    subst hm
    simp only [convert_item, ha, if_true] at h
    cases hc : convert_automation m with
    | ok p =>
        obtain ⟨m', l'⟩ := p
        rw [hc] at h
        cases h
        exact Or.inr ⟨_, _, _, rfl, ha, hc, rfl⟩
    | error e => rw [hc] at h; cases h
  · simp only [convert_item, ha, if_false] at h
    cases h
    exact Or.inl ⟨by simpa using ha, rfl⟩

theorem convert_list_elements {items out : List Node} {lg : List LogEntry}
    (h : convert_list items = .ok (out, lg)) :
    List.Forall₂ (fun i o =>
      (is_automation i = false ∧ o = i)
        ∨ (∃ m m' l', i = Node.map m ∧ is_automation i = true
            ∧ convert_automation m = .ok (m', l') ∧ o = Node.map m'))
      items out := by
  induction items generalizing out lg with
  | nil =>
      simp only [convert_list] at h
      cases h
      exact List.Forall₂.nil
  | cons item rest ih =>
      simp only [convert_list] at h
      cases hi : convert_item item with
      | error e => rw [hi] at h; cases h
      | ok p =>
          obtain ⟨n0, lg0⟩ := p
          rw [hi] at h
          cases hr : convert_list rest with
          | error e => rw [hr] at h; cases h
          | ok q =>
              obtain ⟨ns, lgs⟩ := q
              rw [hr] at h
              cases h
              exact List.Forall₂.cons (convert_item_rel hi) (ih hr)

/-- C4 (amended): on a Sequence, every automation-like element is
replaced by its `convert_automation` image and every other element is
passed through unchanged — it is not recursed into. -/
theorem convert_yaml_data_seq_elements {items : List Node} {n : Node}
    {lg : List LogEntry} (h : convert_yaml_data (.seq items) = .ok (n, lg)) :
    ∃ out, n = Node.seq out ∧
      List.Forall₂ (fun i o =>
        (is_automation i = false ∧ o = i)
          ∨ (∃ m m' l', i = Node.map m ∧ is_automation i = true
              ∧ convert_automation m = .ok (m', l') ∧ o = Node.map m'))
        items out := by
  simp only [convert_yaml_data] at h
  cases hcl : convert_list items with
  | error e => rw [hcl] at h; cases h
  | ok p =>
      obtain ⟨out, lg'⟩ := p
      rw [hcl] at h
      cases h
      exact ⟨out, rfl, convert_list_elements hcl⟩

/-- C4 witness: a two-element sequence (one automation-like dict, one
scalar) instantiating the amended statement. -/
theorem convert_yaml_data_seq_elements_witness :
    ∃ out, Node.seq [Node.map [("triggers",
          Node.seq [Node.map [("trigger", Node.scalar (.str "state"))]])],
        Node.scalar (.str "hello")] = Node.seq out ∧
      List.Forall₂ (fun i o =>
        (is_automation i = false ∧ o = i)
          ∨ (∃ m m' l', i = Node.map m ∧ is_automation i = true
              ∧ convert_automation m = .ok (m', l') ∧ o = Node.map m'))
        [Node.map [("trigger", Node.map [("platform", Node.scalar (.str "state"))])],
          Node.scalar (.str "hello")] out :=
  @convert_yaml_data_seq_elements
    [Node.map [("trigger", Node.map [("platform", Node.scalar (.str "state"))])],
      Node.scalar (.str "hello")]
    (Node.seq [Node.map [("triggers",
        Node.seq [Node.map [("trigger", Node.scalar (.str "state"))]])],
      Node.scalar (.str "hello")])
    [LogEntry.changed (Node.scalar (.str "Unnamed automation"))
      ["trigger → triggers"]] (by rfl)

/-- The nested element of the C4 counterexample: a sequence containing an
automation-like dict. -/
def nested_elem : Node :=
  .seq [.map [("trigger", .map [("platform", .scalar (.str "state"))])]]

/-- C4 counterexample: a sequence whose element is itself a sequence
holding an automation.  The code passes the element through unchanged,
although running `_convert_yaml_data` on the element alone does convert
the nested automation, so the element is provably *not* processed
recursively. -/
theorem convert_yaml_data_seq_no_recursion_cex :
    is_automation nested_elem = false
    ∧ convert_yaml_data (.seq [nested_elem]) = .ok (.seq [nested_elem], [])
    ∧ convert_yaml_data nested_elem
        = .ok (.seq [.map [("triggers", .seq [.map [("trigger", .scalar (.str "state"))]])]],
            [.changed (.scalar (.str "Unnamed automation")) ["trigger → triggers"]])
    ∧ Node.seq [.map [("triggers", .seq [.map [("trigger", .scalar (.str "state"))]])]]
        ≠ nested_elem := by
  refine ⟨by rfl, by rfl, by rfl, ?_⟩
  intro hcontra
  simp [nested_elem] at hcontra

/-! ### C5: `_convert_triggers` on non-mapping inputs -/

/-- A one-character string never contains `"platform"`. -/
theorem singleton_no_platform (c : Char) :
    strContains (String.singleton c) "platform" = false := by
  unfold strContains
  simp only [decide_eq_false_iff_not]
  intro hinf
  have hle := hinf.length_le
  have h8 : ("platform".toList).length = 8 := rfl
  have h1 : ((String.singleton c).toList).length = 1 := rfl
  omega

/-- Iterating the trigger loop over single-character strings passes each
one through. -/
theorem conv_elems_chars (cs : List Char) :
    conv_elems (cs.map fun c => Node.scalar (.str (String.singleton c)))
      = .ok (cs.map fun c => Node.scalar (.str (String.singleton c))) := by
  induction cs with
  | nil => rfl
  | cons c rest ih =>
      simp only [List.map_cons, conv_elems, convert_trigger_elem,
        singleton_no_platform, Bool.false_eq_true, if_false, ih]

/-- C5 counterexample: on the scalar string `"ab"` the converter neither
raises nor passes the value through — it explodes the string into the
sequence of its characters; and on the scalar `5` it raises `TypeError`
instead, so the behavior is not even one consistent choice. -/
theorem convert_triggers_scalar_cex :
    convert_triggers (.scalar (.str "ab"))
      = .ok (.seq [.scalar (.str "a"), .scalar (.str "b")])
    ∧ Node.seq [.scalar (.str "a"), .scalar (.str "b")] ≠ .scalar (.str "ab")
    ∧ Node.seq [.scalar (.str "a"), .scalar (.str "b")] ≠ .seq [.scalar (.str "ab")]
    ∧ convert_triggers (.scalar (.int 5)) = .error .typeError := by
  refine ⟨by rfl, by simp, by simp, by rfl⟩

/-- C5 (amended): the behavior on non-mapping trigger values depends on
the runtime type — a scalar string is split into the sequence of its
one-character strings, any other scalar raises `TypeError`; a sequence
element that is not a mapping passes through unchanged unless Python's
`'platform' in element` test hits (string containment for strings,
membership for lists — then item assignment raises `TypeError`) or is
itself unsupported by `in` (non-string scalars, `TypeError`). -/
theorem convert_triggers_nonmap_behavior :
    (∀ s : String, convert_triggers (.scalar (.str s))
        = .ok (.seq (s.toList.map fun c => Node.scalar (.str (String.singleton c)))))
    ∧ (∀ n : Int, convert_triggers (.scalar (.int n)) = .error .typeError)
    ∧ (∀ b : Bool, convert_triggers (.scalar (.bool b)) = .error .typeError)
    ∧ convert_triggers (.scalar .null) = .error .typeError
    ∧ (∀ l : List Node, l.any isPlatformStr = false →
        convert_trigger_elem (.seq l) = .ok (.seq l))
    ∧ (∀ l : List Node, l.any isPlatformStr = true →
        convert_trigger_elem (.seq l) = .error .typeError)
    ∧ (∀ s : String, strContains s "platform" = false →
        convert_trigger_elem (.scalar (.str s)) = .ok (.scalar (.str s)))
    ∧ (∀ s : String, strContains s "platform" = true →
        convert_trigger_elem (.scalar (.str s)) = .error .typeError)
    ∧ (∀ v : Scalar, (∀ s, v ≠ .str s) →
        convert_trigger_elem (.scalar v) = .error .typeError) := by
  refine ⟨?_, fun n => rfl, fun b => rfl, rfl, ?_, ?_, ?_, ?_, ?_⟩
  · intro s
    simp only [convert_triggers, conv_elems_chars]
  · intro l hl
    simp only [convert_trigger_elem, hl, Bool.false_eq_true, if_false]
  · intro l hl
    simp only [convert_trigger_elem, hl, if_true]
  · intro s hs
    simp only [convert_trigger_elem, hs, Bool.false_eq_true, if_false]
  · intro s hs
    simp only [convert_trigger_elem, hs, if_true]
  · intro v hv
    cases v with
    | str s => exact absurd rfl (hv s)
    | int n => rfl
    | bool b => rfl
    | null => rfl

/-- C5 witness: the pass-through clause applied to a harmless scalar
string element. -/
theorem convert_triggers_nonmap_behavior_witness :
    convert_trigger_elem (.scalar (.str "hello")) = .ok (.scalar (.str "hello")) :=
  convert_triggers_nonmap_behavior.2.2.2.2.2.2.1 "hello" (by decide)

/-! ### C6: classification after conversion -/

theorem dcontains_true_iff (k : String) (m : List (String × Node)) :
    dcontains k m = true ↔ ∃ v, dget k m = some v := by
  simp [dcontains, Option.isSome_iff_exists]

theorem dcontains_false_iff (k : String) (m : List (String × Node)) :
    dcontains k m = false ↔ dget k m = none := by
  unfold dcontains
  cases dget k m <;> simp

/-- `_is_new_syntax` on a dict, spelled out. -/
theorem is_new_syn_map_iff (m : List (String × Node)) :
    is_new_syn (.map m) = true ↔
      (dcontains "triggers" m = true ∨ dcontains "conditions" m = true
        ∨ dcontains "actions" m = true)
      ∧ dcontains "trigger" m = false ∧ dcontains "condition" m = false
      ∧ dcontains "action" m = false := by
  simp only [is_new_syn, List.any_cons, List.any_nil, Bool.or_false,
    Bool.and_eq_true, Bool.or_eq_true, Bool.not_eq_true',
    Bool.or_eq_false_iff]

/-- Inversion of a successful `convert_automation`: either the input was
already in new syntax and is returned as-is, or the three rename steps
ran in order. -/
theorem convert_automation_inv {m b : List (String × Node)}
    {l : List LogEntry} (h : convert_automation m = .ok (b, l)) :
    (is_new_syn (.map m) = true ∧ b = m
      ∧ l = [.alreadyNew ((dget "alias" m).getD (Node.scalar (.str "Unnamed automation")))])
    ∨ (is_new_syn (.map m) = false
        ∧ ∃ m1 c1, trigger_step m = .ok (m1, c1)
          ∧ b = (pure_step "action" "actions" "action → actions"
                (pure_step "condition" "conditions" "condition → conditions" m1).1).1
          ∧ l = (if (c1 ++ (pure_step "condition" "conditions" "condition → conditions" m1).2
                ++ (pure_step "action" "actions" "action → actions"
                    (pure_step "condition" "conditions" "condition → conditions" m1).1).2).isEmpty
              then []
              else [.changed ((dget "alias" m).getD (Node.scalar (.str "Unnamed automation")))
                (c1 ++ (pure_step "condition" "conditions" "condition → conditions" m1).2
                  ++ (pure_step "action" "actions" "action → actions"
                      (pure_step "condition" "conditions" "condition → conditions" m1).1).2)])) := by
  unfold convert_automation at h
  by_cases hn : is_new_syn (.map m) = true
  · rw [if_pos hn] at h
    cases h
    exact Or.inl ⟨hn, rfl, rfl⟩
  · rw [if_neg hn] at h
    cases ht : trigger_step m with
    | error e => rw [ht] at h; cases h
    | ok p =>
        obtain ⟨m1, c1⟩ := p
        rw [ht] at h
        simp only [Except.ok.injEq, Prod.mk.injEq] at h
        obtain ⟨hb, hl⟩ := h
        exact Or.inr ⟨by simpa using hn, m1, c1, rfl, hb.symm, hl.symm⟩

/-- A present `trigger` key turns into a present `triggers` key across a
successful `trigger_step`. -/
theorem trigger_step_new {m m1 : List (String × Node)} {c1 : List String}
    (h : trigger_step m = .ok (m1, c1))
    (hv : (dget "trigger" m).isSome = true) :
    (dget "triggers" m1).isSome = true := by
  cases hvv : dget "trigger" m with
  | none => rw [hvv] at hv; cases hv
  | some tv =>
      cases hc : convert_triggers tv with
      | error e => rw [trigger_step_of_error hvv hc] at h; cases h
      | ok ts =>
          rw [trigger_step_of_some hvv hc] at h
          cases h
          rw [dget_ddel_ne (by decide), dget_dset_self]
          rfl

/-- C6 counterexample: `{alias: "x"}` contains the recognized key
`alias`, yet its conversion (the identity) is not classified as new
syntax. -/
theorem convert_automation_alias_only_cex :
    is_automation (Node.map [("alias", Node.scalar (.str "x"))]) = true
    ∧ convert_automation [("alias", Node.scalar (.str "x"))]
        = .ok ([("alias", Node.scalar (.str "x"))], [])
    ∧ is_new_syn (Node.map [("alias", Node.scalar (.str "x"))]) = false :=
  ⟨by rfl, by rfl, by rfl⟩

/-- C6 (amended): after a successful `convert_automation`, the result is
classified as new syntax whenever the input contained at least one of
the six trigger/condition/action keys (old or new); with only `alias`
(or none) of the recognized keys, the classification can remain false. -/
theorem convert_automation_classification {m b : List (String × Node)}
    {l : List LogEntry} (h : convert_automation m = .ok (b, l))
    (hk : dcontains "trigger" m = true ∨ dcontains "triggers" m = true
      ∨ dcontains "condition" m = true ∨ dcontains "conditions" m = true
      ∨ dcontains "action" m = true ∨ dcontains "actions" m = true) :
    is_new_syn (.map b) = true := by
  obtain ⟨h1, h2, h3⟩ := convert_automation_no_old h
  rcases convert_automation_inv h with ⟨hn, rfl, -⟩ | ⟨hn, m1, c1, ht, hb, -⟩
  · exact hn
  · rw [is_new_syn_map_iff]
    refine ⟨?_, (dcontains_false_iff _ _).mpr h1, (dcontains_false_iff _ _).mpr h2,
      (dcontains_false_iff _ _).mpr h3⟩
    by_cases h_t : dcontains "trigger" m = true
    · left
      subst hb
      rw [dcontains,
        pure_step_other (by decide) (by decide),
        pure_step_other (by decide) (by decide)]
      exact trigger_step_new ht h_t
    · by_cases h_c : dcontains "condition" m = true
      · right; left
        obtain ⟨cv, hcv⟩ := (dcontains_true_iff _ _).mp h_c
        subst hb
        rw [dcontains,
          pure_step_other (by decide) (by decide),
          pure_step_new (by decide) _
            (by rw [trigger_step_other (by decide) (by decide) ht]; exact hcv)]
        rfl
      · by_cases h_a : dcontains "action" m = true
        · right; right
          obtain ⟨av, hav⟩ := (dcontains_true_iff _ _).mp h_a
          subst hb
          rw [dcontains,
            pure_step_new (by decide) _
              (by rw [pure_step_other (by decide) (by decide),
                  trigger_step_other (by decide) (by decide) ht]; exact hav)]
          rfl
        · exfalso
          have hfalse : is_new_syn (.map m) = true := by
            rw [is_new_syn_map_iff]
            refine ⟨?_, by simpa using h_t, by simpa using h_c, by simpa using h_a⟩
            rcases hk with hk | hk | hk | hk | hk | hk
            · exact absurd hk h_t
            · exact Or.inl hk
            · exact absurd hk h_c
            · exact Or.inr (Or.inl hk)
            · exact absurd hk h_a
            · exact Or.inr (Or.inr hk)
          rw [hfalse] at hn
          cases hn

/-- C6 witness: a `condition`-only automation converts to a dict that is
classified as new syntax. -/
theorem convert_automation_classification_witness :
    is_new_syn (.map [("conditions", Node.scalar (.str "c"))]) = true :=
  @convert_automation_classification
    [("condition", Node.scalar (.str "c"))]
    [("conditions", Node.scalar (.str "c"))]
    [LogEntry.changed (Node.scalar (.str "Unnamed automation"))
      ["condition → conditions"]]
    (by rfl)
    (Or.inr (Or.inr (Or.inl (by rfl))))

/-! ### C8: one conversion record per call? -/

theorem trigger_step_snd {m m1 : List (String × Node)} {c1 : List String}
    (h : trigger_step m = .ok (m1, c1)) :
    c1 = if dcontains "trigger" m then ["trigger → triggers"] else [] := by
  cases hv : dget "trigger" m with
  | none =>
      rw [trigger_step_of_none hv] at h
      cases h
      simp [dcontains, hv]
  | some tv =>
      cases hc : convert_triggers tv with
      | error e => rw [trigger_step_of_error hv hc] at h; cases h
      | ok ts =>
          rw [trigger_step_of_some hv hc] at h
          cases h
          simp [dcontains, hv]

theorem pure_step_snd (oldK newK tag : String) (m : List (String × Node)) :
    (pure_step oldK newK tag m).2
      = if dcontains oldK m then [tag] else [] := by
  cases hv : dget oldK m <;> simp [pure_step, hv, dcontains]

/-- C8 counterexample: converting `{alias: "y"}` (automation-like via
`alias`) appends no conversion record at all — the returned log list is
empty. -/
theorem convert_automation_no_record_cex :
    is_automation (Node.map [("alias", Node.scalar (.str "y"))]) = true
    ∧ convert_automation [("alias", Node.scalar (.str "y"))]
        = .ok ([("alias", Node.scalar (.str "y"))], []) :=
  ⟨by rfl, by rfl⟩

/-- C8 (amended): a successful `convert_automation` appends exactly one
record when the input is already new-syntax or has at least one old key
(`trigger`/`condition`/`action`), and none otherwise. -/
theorem convert_automation_log_count {m b : List (String × Node)}
    {l : List LogEntry} (h : convert_automation m = .ok (b, l)) :
    l.length = if (is_new_syn (.map m) || dcontains "trigger" m
        || dcontains "condition" m || dcontains "action" m) then 1 else 0 := by
  rcases convert_automation_inv h with ⟨hn, -, hl⟩ | ⟨hn, m1, c1, ht, -, hl⟩
  · subst hl
    simp [hn]
  · have hc1 := trigger_step_snd ht
    have hs2 : (pure_step "condition" "conditions" "condition → conditions" m1).2
        = if dcontains "condition" m then ["condition → conditions"] else [] := by
      rw [pure_step_snd]
      unfold dcontains
      rw [trigger_step_other (by decide) (by decide) ht]
    have hs3 : (pure_step "action" "actions" "action → actions"
          (pure_step "condition" "conditions" "condition → conditions" m1).1).2
        = if dcontains "action" m then ["action → actions"] else [] := by
      rw [pure_step_snd]
      unfold dcontains
      rw [pure_step_other (by decide) (by decide),
        trigger_step_other (by decide) (by decide) ht]
    rw [hc1, hs2, hs3] at hl
    subst hl
    cases h_t : dcontains "trigger" m <;>
      cases h_c : dcontains "condition" m <;>
        cases h_a : dcontains "action" m <;>
          simp [h_t, h_c, h_a, hn]

/-- C8 witness: a trigger-only automation appends exactly one record. -/
theorem convert_automation_log_count_witness :
    ([LogEntry.changed (Node.scalar (.str "Unnamed automation"))
        ["trigger → triggers"]]).length
      = if (is_new_syn (.map [("trigger", Node.map [("platform", Node.scalar (.str "state"))])])
          || dcontains "trigger" [("trigger", Node.map [("platform", Node.scalar (.str "state"))])]
          || dcontains "condition" [("trigger", Node.map [("platform", Node.scalar (.str "state"))])]
          || dcontains "action" [("trigger", Node.map [("platform", Node.scalar (.str "state"))])])
        then 1 else 0 :=
  @convert_automation_log_count
    [("trigger", Node.map [("platform", Node.scalar (.str "state"))])]
    [("triggers", Node.seq [Node.map [("trigger", Node.scalar (.str "state"))]])]
    [LogEntry.changed (Node.scalar (.str "Unnamed automation"))
      ["trigger → triggers"]]
    (by rfl)

/-! ### C7: container scoping on non-automation mappings -/

theorem convert_entries_frame {m m' : List (String × Node)}
    {lg : List LogEntry} (h : convert_entries m = .ok (m', lg)) :
    List.Forall₂ (fun p q => p.1 = q.1
      ∧ (p.1 ≠ "automation" → q.2 = p.2)
      ∧ (p.1 = "automation" → ∃ lg2, convert_yaml_data p.2 = .ok (q.2, lg2)))
      m m' := by
  induction m generalizing m' lg with
  | nil =>
      simp only [convert_entries] at h
      cases h
      exact List.Forall₂.nil
  | cons p rest ih =>
      obtain ⟨k, v⟩ := p
      simp only [convert_entries] at h
      by_cases hk : k = "automation"
      · subst hk
        rw [if_pos rfl] at h
        cases hcv : convert_yaml_data v with
        | error e => rw [hcv] at h; cases h
        | ok q =>
            obtain ⟨v', lgv⟩ := q
            rw [hcv] at h
            cases hr : convert_entries rest with
            | error e => rw [hr] at h; cases h
            | ok r =>
                obtain ⟨rest', lgs⟩ := r
                rw [hr] at h
                cases h
                exact List.Forall₂.cons
                  ⟨rfl, fun hne => absurd rfl hne, fun _ => ⟨lgv, hcv⟩⟩ (ih hr)
      · rw [if_neg hk] at h
        cases hr : convert_entries rest with
        | error e => rw [hr] at h; cases h
        | ok r =>
            obtain ⟨rest', lgs⟩ := r
            rw [hr] at h
            cases h
            exact List.Forall₂.cons
              ⟨rfl, fun _ => rfl, fun he => absurd he hk⟩ (ih hr)

/-- C7: on a non-automation mapping, the rewrite preserves the keys in
order; every key other than `automation` keeps its value unchanged
(deep-equal: the very same subtree), and the `automation` value is the
recursive rewrite of the input value. -/
theorem convert_yaml_data_map_frame {m : List (String × Node)} {n' : Node}
    {lg : List LogEntry} (ha : is_automation (.map m) = false)
    (h : convert_yaml_data (.map m) = .ok (n', lg)) :
    ∃ m', n' = Node.map m'
      ∧ List.Forall₂ (fun p q => p.1 = q.1
          ∧ (p.1 ≠ "automation" → q.2 = p.2)
          ∧ (p.1 = "automation" → ∃ lg2, convert_yaml_data p.2 = .ok (q.2, lg2)))
        m m' := by
  simp only [convert_yaml_data, ha, Bool.false_eq_true, if_false] at h
  cases hce : convert_entries m with
  | error e => rw [hce] at h; cases h
  | ok p =>
      obtain ⟨m', lg'⟩ := p
      rw [hce] at h
      cases h
      exact ⟨m', rfl, convert_entries_frame hce⟩

/-- C7 witness: `{automation: [{alias: A, trigger: {platform: sun}}],
other_key: {trigger: {platform: x}}}` — only the automation value is
rewritten; `other_key` keeps its nested `trigger` untouched. -/
theorem convert_yaml_data_map_frame_witness :
    ∃ m', Node.map [("automation", Node.seq [Node.map [("alias", Node.scalar (.str "A")),
          ("triggers", Node.seq [Node.map [("trigger", Node.scalar (.str "sun"))]])]]),
        ("other_key", Node.map [("trigger", Node.map [("platform", Node.scalar (.str "x"))])])]
        = Node.map m'
      ∧ List.Forall₂ (fun p q => p.1 = q.1
          ∧ (p.1 ≠ "automation" → q.2 = p.2)
          ∧ (p.1 = "automation" → ∃ lg2, convert_yaml_data p.2 = .ok (q.2, lg2)))
        [("automation", Node.seq [Node.map [("alias", Node.scalar (.str "A")),
            ("trigger", Node.map [("platform", Node.scalar (.str "sun"))])]]),
          ("other_key", Node.map [("trigger", Node.map [("platform", Node.scalar (.str "x"))])])]
        m' :=
  @convert_yaml_data_map_frame
    [("automation", Node.seq [Node.map [("alias", Node.scalar (.str "A")),
        ("trigger", Node.map [("platform", Node.scalar (.str "sun"))])]]),
      ("other_key", Node.map [("trigger", Node.map [("platform", Node.scalar (.str "x"))])])]
    (Node.map [("automation", Node.seq [Node.map [("alias", Node.scalar (.str "A")),
        ("triggers", Node.seq [Node.map [("trigger", Node.scalar (.str "sun"))]])]]),
      ("other_key", Node.map [("trigger", Node.map [("platform", Node.scalar (.str "x"))])])])
    [LogEntry.changed (Node.scalar (.str "A")) ["trigger → triggers"]]
    (by rfl) (by rfl)

/-! ### C9: record accuracy over a three-automation list -/

/-- Automation already in new syntax. -/
def auto_already_new : List (String × Node) :=
  [("alias", .scalar (.str "a1")), ("triggers", .seq [])]

/-- Automation with all three old keys. -/
def auto_full : List (String × Node) :=
  [("alias", .scalar (.str "a2")),
    ("trigger", .map [("platform", .scalar (.str "time"))]),
    ("condition", .scalar (.str "c")),
    ("action", .scalar (.str "act"))]

/-- Automation with only the `trigger` old key. -/
def auto_trigger_only : List (String × Node) :=
  [("alias", .scalar (.str "a3")),
    ("trigger", .map [("platform", .scalar (.str "state"))])]

/-- The three-automation document of the record-accuracy property. -/
def doc9 : Node := .seq [.map auto_already_new, .map auto_full, .map auto_trigger_only]

/-- Its conversion result. -/
def doc9_out : Node := .seq
  [.map [("alias", .scalar (.str "a1")), ("triggers", .seq [])],
    .map [("alias", .scalar (.str "a2")),
      ("triggers", .seq [.map [("trigger", .scalar (.str "time"))]]),
      ("conditions", .scalar (.str "c")),
      ("actions", .scalar (.str "act"))],
    .map [("alias", .scalar (.str "a3")),
      ("triggers", .seq [.map [("trigger", .scalar (.str "state"))]])]]

/-- C9: converting the three automations yields exactly one
"already new" record and two "converted" records (total 3), and the
record of the trigger-only automation lists exactly the single rename
`trigger → triggers`. -/
theorem record_accuracy :
    convert_yaml_data doc9
      = .ok (doc9_out,
        [.alreadyNew (.scalar (.str "a1")),
          .changed (.scalar (.str "a2"))
            ["trigger → triggers", "condition → conditions", "action → actions"],
          .changed (.scalar (.str "a3")) ["trigger → triggers"]])
    ∧ get_summary_stats
        [.alreadyNew (.scalar (.str "a1")),
          .changed (.scalar (.str "a2"))
            ["trigger → triggers", "condition → conditions", "action → actions"],
          .changed (.scalar (.str "a3")) ["trigger → triggers"]]
      = { converted := 2, already_new := 1, total := 3 } :=
  ⟨by rfl, by rfl⟩

/-! ### C10: mixed `trigger` + `triggers` input -/

/-- C10: on a dict holding both the old `trigger` key and a pre-existing
`triggers` key, conversion proceeds (the node is not classified as new
syntax), deterministically overwrites `triggers` with the normalization
of the old `trigger` value (the pre-existing content is discarded),
removes `trigger`, and still renames any `condition`/`action` keys. -/
theorem convert_automation_overwrites (m : List (String × Node)) (tv ts : Node)
    (ht : dget "trigger" m = some tv)
    (_hts : dcontains "triggers" m = true)
    (hc : convert_triggers tv = .ok ts) :
    ∃ b l, convert_automation m = .ok (b, l)
      ∧ dget "triggers" b = some ts
      ∧ dcontains "trigger" b = false
      ∧ (∀ cv, dget "condition" m = some cv →
          dget "conditions" b = some cv ∧ dcontains "condition" b = false)
      ∧ (∀ av, dget "action" m = some av →
          dget "actions" b = some av ∧ dcontains "action" b = false) := by
  have hct : dcontains "trigger" m = true := by simp [dcontains, ht]
  have hn : is_new_syn (.map m) = false := by
    cases hh : is_new_syn (.map m) with
    | false => rfl
    | true =>
        obtain ⟨-, h1, -, -⟩ := (is_new_syn_map_iff m).mp hh
        rw [hct] at h1
        cases h1
  have hex : ∃ l, convert_automation m
      = .ok ((pure_step "action" "actions" "action → actions"
          (pure_step "condition" "conditions" "condition → conditions"
            (ddel "trigger" (dset "triggers" ts m))).1).1, l) := by
    unfold convert_automation
    rw [if_neg (by simp [hn]), trigger_step_of_some ht hc]
    exact ⟨_, rfl⟩
  obtain ⟨l, hca⟩ := hex
  refine ⟨_, l, hca, ?_, ?_, ?_, ?_⟩
  · rw [pure_step_other (by decide) (by decide),
      pure_step_other (by decide) (by decide),
      dget_ddel_ne (by decide), dget_dset_self]
  · rw [dcontains, pure_step_other (by decide) (by decide),
      pure_step_other (by decide) (by decide), dget_ddel_self]
    rfl
  · intro cv hcv
    have hcv1 : dget "condition" (ddel "trigger" (dset "triggers" ts m)) = some cv := by
      rw [dget_ddel_ne (by decide), dget_dset_ne (by decide)]
      exact hcv
    constructor
    · rw [pure_step_other (by decide) (by decide),
        pure_step_new (by decide) _ hcv1]
    · rw [dcontains, pure_step_other (by decide) (by decide),
        pure_step_old]
      rfl
  · intro av hav
    have hav2 : dget "action"
        (pure_step "condition" "conditions" "condition → conditions"
          (ddel "trigger" (dset "triggers" ts m))).1 = some av := by
      rw [pure_step_other (by decide) (by decide),
        dget_ddel_ne (by decide), dget_dset_ne (by decide)]
      exact hav
    constructor
    · rw [pure_step_new (by decide) _ hav2]
    · rw [dcontains, pure_step_old]
      rfl

/-- C10 witness: `{triggers: "old", trigger: {platform: sun},
condition: "c"}` — the stale `triggers` is overwritten, `trigger`
removed, `condition` renamed. -/
theorem convert_automation_overwrites_witness :
    ∃ b l, convert_automation
        [("triggers", Node.scalar (.str "old")),
          ("trigger", Node.map [("platform", Node.scalar (.str "sun"))]),
          ("condition", Node.scalar (.str "c"))]
      = .ok (b, l)
      ∧ dget "triggers" b = some (.seq [.map [("trigger", Node.scalar (.str "sun"))]])
      ∧ dcontains "trigger" b = false
      ∧ (∀ cv, dget "condition"
            [("triggers", Node.scalar (.str "old")),
              ("trigger", Node.map [("platform", Node.scalar (.str "sun"))]),
              ("condition", Node.scalar (.str "c"))] = some cv →
          dget "conditions" b = some cv ∧ dcontains "condition" b = false)
      ∧ (∀ av, dget "action"
            [("triggers", Node.scalar (.str "old")),
              ("trigger", Node.map [("platform", Node.scalar (.str "sun"))]),
              ("condition", Node.scalar (.str "c"))] = some av →
          dget "actions" b = some av ∧ dcontains "action" b = false) :=
  convert_automation_overwrites
    [("triggers", Node.scalar (.str "old")),
      ("trigger", Node.map [("platform", Node.scalar (.str "sun"))]),
      ("condition", Node.scalar (.str "c"))]
    (Node.map [("platform", Node.scalar (.str "sun"))])
    (Node.seq [Node.map [("trigger", Node.scalar (.str "sun"))]])
    (by rfl) (by rfl) (by rfl)
